import Mathlib

/-!
# io_uring cat / cp: request-context construction and completion handling

A shallow embedding of `src/cat.c` and `src/cp.c`.

* `off_t` values are modelled as `Int`.  Every `off_t` expression of the two
  programs stays inside the 64-bit range whenever the file size does
  (`size` only decreases, down to `-4095` at worst; `blocks` and `block`
  are at most `size / 4096 + 1`), so no wrap is written for them.
* The narrowing stores into `int` fields (`size`, `blocks`) and the
  `unsigned` vector count of a submission do lose bits; they are written
  with `toInt32` / `toUInt32`.
* `aligned_alloc` is an oracle `alloc : Nat → Option Nat`: the result of the
  `n`-th call (`none` is `NULL`).  `malloc` of the context record is a
  boolean.
* The segment table is a list of slots; a slot is `none` until the program
  stores both fields of that `struct iovec`.  A store outside the table, or
  a load of an unwritten slot, is reported as `Outcome.fault`.
-/

namespace IoUring

/-- One byte of file content or buffer memory. -/
abbrev Byte := Fin 256

/-- The block size, `#define BLOCK_SZ 4096`. -/
def BLOCK_SZ : Int := 4096

/-- Conversion of an integer value to `int` (32-bit two's complement). -/
def toInt32 (x : Int) : Int := (x + 2147483648) % 4294967296 - 2147483648

/-- Conversion of an integer value to `unsigned` (32 bits). -/
def toUInt32 (x : Int) : Int := x % 4294967296

/-- Conversion of an integer value to `off_t` (64-bit two's complement). -/
def toInt64 (x : Int) : Int :=
  (x + 9223372036854775808) % 18446744073709551616 - 9223372036854775808

/-- The record `struct iovec`: buffer base address and length in bytes. -/
structure iovec where
  iov_base : Nat
  iov_len : Nat
deriving DecidableEq, Repr

/-- The flexible array member `iovecs[]`: one slot per table entry. -/
abbrev Table := List (Option iovec)

/-- What `S_ISBLK` / `S_ISREG` say about `st_mode`. -/
inductive FileKind
  | blk
  | reg
  | other
deriving DecidableEq, Repr

/-- What the operating system answers for one descriptor: whether `fstat`
succeeds, the file type and `st_size` it reports, whether the
`BLKGETSIZE64` request succeeds and the `unsigned long long` it stores. -/
structure FdInfo where
  fstat_ok : Bool
  kind : FileKind
  st_size : Int
  ioctl_ok : Bool
  bytes : Nat
deriving DecidableEq, Repr

/-- Function `get_file_size` (cat.c 22-43, cp.c 34-55; the two are identical). -/
def get_file_size (f : FdInfo) : Int :=
  if f.fstat_ok = false then -1
  else match f.kind with
    | FileKind.blk => if f.ioctl_ok = false then -1 else toInt64 (f.bytes : Int)
    | FileKind.reg => f.st_size
    | FileKind.other => -1

/-- Bookkeeping of the block allocator: how many times `aligned_alloc` was
called, the addresses it returned, and the addresses handed to `free`. -/
structure Heap where
  calls : Nat
  allocated : List Nat
  freed : List Nat
deriving DecidableEq, Repr

/-- Result of the block-filling loop of `read_file`. -/
inductive Fill
  | done (tbl : Table) (h : Heap)
  | nomem (tbl : Table) (h : Heap)
  | fault
  | fuel
deriving DecidableEq, Repr

/-- The loop `block = 0; while (size > 0) { ... }` of `read_file`
(cat.c 65-79, cp.c 79-93; the two are identical).  The first argument bounds
the number of iterations; `Fill.fuel` reports that the bound was hit. -/
def fill_loop (alloc : Nat → Option Nat) : Nat → Int → Nat → Table → Heap → Fill
  | 0, size, _, tbl, h => if size > 0 then Fill.fuel else Fill.done tbl h
  | fuel + 1, size, block, tbl, h =>
    if size > 0 then
      match alloc h.calls with
      | none => Fill.nomem tbl { h with calls := h.calls + 1 }
      | some buf =>
        if block < tbl.length then
          fill_loop alloc fuel (size - BLOCK_SZ) (block + 1)
            (tbl.set block (some ⟨buf, (min size BLOCK_SZ).toNat⟩))
            { h with calls := h.calls + 1, allocated := h.allocated ++ [buf] }
        else Fill.fault
    else Fill.done tbl h

/-- The block count computed at the top of `read_file` and again in
`handle_cqes`: `blocks = size / BLOCK_SZ; if (size % BLOCK_SZ) blocks++;`
with C's truncating division. -/
def block_count (size : Int) : Int :=
  if Int.tmod size BLOCK_SZ ≠ 0 then Int.tdiv size BLOCK_SZ + 1 else Int.tdiv size BLOCK_SZ

/-- Operation code of a submission. -/
inductive Opcode
  | readv
  | writev
deriving DecidableEq, Repr

/-- A submission queue entry as prepared by `io_uring_prep_readv` /
`io_uring_prep_writev` and tagged by `io_uring_sqe_set_data`. -/
structure Sqe (α : Type) where
  op : Opcode
  fd : Int
  iovecs : Table
  nr_vecs : Int
  offset : Int
  user_data : α
deriving DecidableEq, Repr

/-- A completion queue entry: result code and the tag of the submission. -/
structure Cqe (α : Type) where
  res : Int
  user_data : α
deriving DecidableEq, Repr

/-- How a modelled function ends: it returns `code` leaving the world `w`,
or it touches memory outside an object, or the iteration bound was hit, or
it waits for a completion on a ring with nothing submitted. -/
inductive Outcome (σ : Type)
  | ret (code : Int) (w : σ)
  | fault
  | fuel
  | hang

/-- Buffer memory: the byte at offset `j` of the buffer based at `b`. -/
abbrev Mem := Nat → Nat → Byte

/-- Modelled from the spec: the kernel side of a vectorized read is not code of
this repository.  Section 4.3 says the kernel fills segment 0 first with
bytes `[0, len0)`, segment 1 with `[len0, len0+len1)`, and so on.  `fill_seg`
stores the bytes of `content` from offset `off` into one segment; bytes past
the end of the file leave the buffer as it was. -/
def fill_seg (content : List Byte) (off : Nat) (v : iovec) (mem : Mem) : Mem :=
  fun b j =>
    if b = v.iov_base ∧ j < v.iov_len then (content[off + j]?).getD (mem b j) else mem b j

/-- Modelled from the spec: the kernel fills the segments of a vectorized read
in vector-index order (section 4.3).  An unwritten descriptor stops the
transfer. -/
def scatter (content : List Byte) : Table → Nat → Mem → Mem
  | [], _, mem => mem
  | none :: _, _, mem => mem
  | some v :: rest, off, mem =>
    scatter content rest (off + v.iov_len) (fill_seg content off v mem)

/-- Modelled from the spec: the kernel side of a vectorized write, symmetric to
the read (section 4.3): the bytes of the segments, in vector-index order. -/
def gather (mem : Mem) : Table → List Byte
  | [] => []
  | none :: _ => []
  | some v :: rest => (List.range v.iov_len).map (mem v.iov_base) ++ gather mem rest

/-- Total length requested by the written descriptors of a table. -/
def table_bytes : Table → Nat
  | [] => 0
  | none :: _ => 0
  | some v :: rest => v.iov_len + table_bytes rest

/-- Modelled from the spec: completion of a vectorized read of a file holding
`content` at offset 0 (section 4.3): the first `nr_vecs` segments are filled
in order and the result is the number of bytes transferred. -/
def kernel_readv {α : Type} (content : List Byte) (s : Sqe α) (mem : Mem) : Mem × Int :=
  let vecs := s.iovecs.take s.nr_vecs.toNat
  (scatter content vecs 0 mem, (min (table_bytes vecs) content.length : Nat))

/-- Modelled from the spec: the bytes a vectorized write at offset 0 puts into
the destination (section 4.3): those of the first `nr_vecs` segments. -/
def kernel_writev {α : Type} (s : Sqe α) (mem : Mem) : List Byte :=
  gather mem (s.iovecs.take s.nr_vecs.toNat)

/-! ## cat.c -/

namespace cat

/-- The record `struct cat_data`. -/
structure cat_data where
  fd : Int
  size : Int
  iovecs : Table
deriving DecidableEq, Repr

/-- State of the concatenator: allocator bookkeeping, the entries submitted
to the ring and not yet completed, the bytes written to `stdout`, buffer
memory. -/
structure World where
  heap : Heap
  ring : List (Sqe cat_data)
  out : List Byte
  mem : Mem

/-- Function `read_file` (cat.c 45-86).  `info` is what the system reports for `fd`,
`malloc_ok` whether `malloc` of the context record succeeds.
`io_uring_get_sqe` is taken to return an entry: the queue has 256 entries
and the program keeps at most one submission in flight. -/
def read_file (alloc : Nat → Option Nat) (malloc_ok : Bool) (info : FdInfo)
    (fd : Int) (w : World) : Outcome World :=
  let size := get_file_size info
  let blocks := block_count size
  if malloc_ok = false then Outcome.ret (-1) w
  else
    match fill_loop alloc size.toNat size 0 (List.replicate blocks.toNat none) w.heap with
    | Fill.fuel => Outcome.fuel
    | Fill.fault => Outcome.fault
    | Fill.nomem _ h => Outcome.ret (-1) { w with heap := h }
    | Fill.done tbl h =>
      Outcome.ret 0
        { w with
          heap := h
          ring := w.ring ++
            [{ op := Opcode.readv, fd := fd, iovecs := tbl, nr_vecs := toUInt32 blocks,
               offset := 0, user_data := { fd := fd, size := toInt32 size, iovecs := tbl } }] }

/-- The inner loop `while (iov_len--) fputc(*p++, stdout);` of `handle_cqes`:
first argument `iov_len`, second the offset of `p` from the buffer base. -/
def emit (mem : Mem) (base : Nat) : Nat → Nat → List Byte → List Byte
  | 0, _, out => out
  | len + 1, j, out => emit mem base len (j + 1) (out ++ [mem base j])

/-- The loop `for (i = 0; i < blocks; i++) { ...; free(iov_base); }` of
`handle_cqes`: first argument the number of iterations left, second `i`. -/
def drain (tbl : Table) : Nat → Nat → World → Option World
  | 0, _, w => some w
  | n + 1, i, w =>
    match tbl[i]? with
    | some (some v) =>
      drain tbl n (i + 1)
        { w with
          out := emit w.mem v.iov_base v.iov_len 0 w.out
          heap := { w.heap with freed := w.heap.freed ++ [v.iov_base] } }
    | _ => none

/-- Function `handle_cqes` (cat.c 88-114).  `wait_ret` is what `io_uring_wait_cqe`
returns and `cqe` the completion it delivers.  The block count is recomputed
in `int` from the stored `int size`.  The result code `cqe->res` is not read
by the function.  `io_uring_cqe_seen` retires the completion; the submission
has already left `ring` when the kernel completed it (`complete`). -/
def handle_cqes (wait_ret : Int) (cqe : Cqe cat_data) (w : World) : Outcome World :=
  if wait_ret ≠ 0 then Outcome.ret (-1) w
  else
    let cat_data := cqe.user_data
    let blocks := block_count cat_data.size
    match drain cat_data.iovecs blocks.toNat 0 w with
    | some w1 => Outcome.ret 0 w1
    | none => Outcome.fault

/-- What the environment provides for one command-line argument: the result
of `open`, what the system reports for the descriptor, whether `malloc`
succeeds, how the kernel completes the submitted read (new buffer memory and
result code), and what `io_uring_wait_cqe` returns. -/
structure FileEnv where
  fd : Int
  info : FdInfo
  malloc_ok : Bool
  kernel : Sqe cat_data → Mem → Mem × Int
  wait_ret : Int

/-- The kernel completes the oldest submission of the ring. -/
def complete (k : Sqe cat_data → Mem → Mem × Int) (w : World) :
    Option (Cqe cat_data × World) :=
  match w.ring with
  | [] => none
  | s :: rest =>
    some ({ res := (k s w.mem).2, user_data := s.user_data },
          { w with ring := rest, mem := (k s w.mem).1 })

/-- The loop `for (i = 1; i < argc; i++)` of `main` (cat.c 127-142), over the
remaining arguments.  Falling off the end of `main` returns 0. -/
def main_loop (alloc : Nat → Option Nat) : List FileEnv → World → Outcome World
  | [], w => Outcome.ret 0 w
  | f :: rest, w =>
    if f.fd < 0 then Outcome.ret (-1) w
    else
      match read_file alloc f.malloc_ok f.info f.fd w with
      | Outcome.ret ret w1 =>
        if ret ≠ 0 then Outcome.ret ret w1
        else
          match complete f.kernel w1 with
          | none => Outcome.hang
          | some (cqe, w2) =>
            match handle_cqes f.wait_ret cqe w2 with
            | Outcome.ret ret2 w3 =>
              if ret2 ≠ 0 then Outcome.ret ret2 w3 else main_loop alloc rest w3
            | Outcome.fault => Outcome.fault
            | Outcome.fuel => Outcome.fuel
            | Outcome.hang => Outcome.hang
      | Outcome.fault => Outcome.fault
      | Outcome.fuel => Outcome.fuel
      | Outcome.hang => Outcome.hang

/-- Function `main` (cat.c 116-143): `files` are the arguments after the program
name, so `argc = files.length + 1`. -/
def main (alloc : Nat → Option Nat) (files : List FileEnv) (w : World) : Outcome World :=
  if files.length + 1 < 2 then Outcome.ret (-1) w
  else main_loop alloc files w

end cat

/-! ## cp.c -/

namespace cp

/-- The vector-count limit named in the header comment of cp.c
(`IOV_MAX limits to 1024 * 4KB`). -/
def IOV_MAX : Int := 1024

/-- The record `struct cp_data`. -/
structure cp_data where
  infd : Int
  outfd : Int
  size : Int
  blocks : Int
  iovecs : Table
deriving DecidableEq, Repr

/-- State of the copier: allocator bookkeeping, the entries submitted to the
read ring and to the write ring and not yet completed, buffer memory. -/
structure World where
  heap : Heap
  read_ring : List (Sqe cp_data)
  write_ring : List (Sqe cp_data)
  mem : Mem

/-- Function `read_file` (cp.c 57-101).  Parameters as for cat.c.  The store
`sqe->flags = IOSQE_ASYNC` precedes `io_uring_prep_readv`, which resets the
flags; flags are not part of `Sqe`. -/
def read_file (alloc : Nat → Option Nat) (malloc_ok : Bool) (info : FdInfo)
    (infd outfd : Int) (w : World) : Outcome World :=
  let size := get_file_size info
  let blocks := block_count size
  if malloc_ok = false then Outcome.ret (-1) w
  else
    match fill_loop alloc size.toNat size 0 (List.replicate blocks.toNat none) w.heap with
    | Fill.fuel => Outcome.fuel
    | Fill.fault => Outcome.fault
    | Fill.nomem _ h => Outcome.ret (-1) { w with heap := h }
    | Fill.done tbl h =>
      Outcome.ret 0
        { w with
          heap := h
          read_ring := w.read_ring ++
            [{ op := Opcode.readv, fd := infd, iovecs := tbl, nr_vecs := toUInt32 blocks,
               offset := 0,
               user_data := { infd := infd, outfd := outfd, size := toInt32 size,
                              blocks := toInt32 blocks, iovecs := tbl } }] }

/-- Function `write_file` (cp.c 103-113): submits the write on `ring`, here the write
ring of the world. -/
def write_file (cp_data : cp_data) (w : World) : World :=
  { w with
    write_ring := w.write_ring ++
      [{ op := Opcode.writev, fd := cp_data.outfd, iovecs := cp_data.iovecs,
         nr_vecs := toUInt32 cp_data.blocks, offset := 0, user_data := cp_data }] }

/-- Function `handle_read_cqes` (cp.c 115-136). -/
def handle_read_cqes (wait_ret : Int) (cqe : Cqe cp_data) (w : World) : Outcome World :=
  if wait_ret ≠ 0 then Outcome.ret (-1) w
  else if cqe.res < 0 then Outcome.ret (-1) w
  else Outcome.ret 0 (write_file cqe.user_data w)

/-- The loop `for (i = 0; i < cp_data->blocks; i++) free(iovecs[i].iov_base);`
of `handle_write_cqes`: first argument the iterations left, second `i`. -/
def release (tbl : Table) : Nat → Nat → Heap → Option Heap
  | 0, _, h => some h
  | n + 1, i, h =>
    match tbl[i]? with
    | some (some v) => release tbl n (i + 1) { h with freed := h.freed ++ [v.iov_base] }
    | _ => none

/-- Function `handle_write_cqes` (cp.c 138-156). -/
def handle_write_cqes (wait_ret : Int) (cqe : Cqe cp_data) (w : World) : Outcome World :=
  if wait_ret ≠ 0 then Outcome.ret (-1) w
  else
    let cp_data := cqe.user_data
    match release cp_data.iovecs cp_data.blocks.toNat 0 w.heap with
    | some h => Outcome.ret 0 { w with heap := h }
    | none => Outcome.fault

/-- What the environment provides for one run of the copier: `argc`, the
results of the two `io_uring_queue_init` calls, of `open` on the source, of
`fstat` in `main`, of `open` on the destination, what the system reports for
the source, whether `malloc` succeeds, how the kernel completes the read (new
buffer memory and result code) and the write (result code), and what the two
waits return. -/
structure Env where
  argc : Nat
  read_init : Int
  write_init : Int
  infd : Int
  fstat_ok : Bool
  outfd : Int
  info : FdInfo
  malloc_ok : Bool
  read_kernel : Sqe cp_data → Mem → Mem × Int
  read_wait : Int
  write_kernel : Sqe cp_data → Mem → Int
  write_wait : Int

/-- The kernel completes the oldest submission of the read ring. -/
def complete_read (k : Sqe cp_data → Mem → Mem × Int) (w : World) :
    Option (Cqe cp_data × World) :=
  match w.read_ring with
  | [] => none
  | s :: rest =>
    some ({ res := (k s w.mem).2, user_data := s.user_data },
          { w with read_ring := rest, mem := (k s w.mem).1 })

/-- The kernel completes the oldest submission of the write ring. -/
def complete_write (k : Sqe cp_data → Mem → Int) (w : World) :
    Option (Cqe cp_data × World) :=
  match w.write_ring with
  | [] => none
  | s :: rest =>
    some ({ res := k s w.mem, user_data := s.user_data }, { w with write_ring := rest })

/-- Function `main` (cp.c 158-208).  Falling off the end of `main` returns 0. -/
def main (alloc : Nat → Option Nat) (e : Env) (w : World) : Outcome World :=
  if e.argc ≠ 3 then Outcome.ret (-1) w
  else if e.read_init < 0 then Outcome.ret (-1) w
  else if e.write_init < 0 then Outcome.ret (-1) w
  else if e.infd < 0 then Outcome.ret (-1) w
  else if e.fstat_ok = false then Outcome.ret (-1) w
  else if e.outfd < 0 then Outcome.ret (-1) w
  else
    match read_file alloc e.malloc_ok e.info e.infd e.outfd w with
    | Outcome.ret ret w1 =>
      if ret ≠ 0 then Outcome.ret ret w1
      else
        match complete_read e.read_kernel w1 with
        | none => Outcome.hang
        | some (cqe, w2) =>
          match handle_read_cqes e.read_wait cqe w2 with
          | Outcome.ret ret2 w3 =>
            if ret2 ≠ 0 then Outcome.ret ret2 w3
            else
              match complete_write e.write_kernel w3 with
              | none => Outcome.hang
              | some (cqe2, w4) =>
                match handle_write_cqes e.write_wait cqe2 w4 with
                | Outcome.ret ret3 w5 =>
                  if ret3 ≠ 0 then Outcome.ret ret3 w5 else Outcome.ret 0 w5
                | Outcome.fault => Outcome.fault
                | Outcome.fuel => Outcome.fuel
                | Outcome.hang => Outcome.hang
          | Outcome.fault => Outcome.fault
          | Outcome.fuel => Outcome.fuel
          | Outcome.hang => Outcome.hang
    | Outcome.fault => Outcome.fault
    | Outcome.fuel => Outcome.fuel
    | Outcome.hang => Outcome.hang

end cp

/-! ## Description of what the loop of `read_file` writes -/

/-- The lengths the loop of `read_file` gives to `n` consecutive segments
when `size` bytes remain. -/
def seg_lens : Nat → Int → List Nat
  | 0, _ => []
  | n + 1, size => (min size BLOCK_SZ).toNat :: seg_lens n (size - BLOCK_SZ)

/-- The segments written by the loop of `read_file` into buffers `bufs`. -/
def segs_of (bufs : List Nat) (size : Int) : List iovec :=
  List.zipWith iovec.mk bufs (seg_lens bufs.length size)

/-- The table slots written by the loop: every slot holds its segment. -/
def built (bufs : List Nat) (size : Int) : Table :=
  (segs_of bufs size).map some

/-- The addresses returned by `n` successful allocations numbered from `c`. -/
def fresh (a : Nat → Nat) (c n : Nat) : List Nat := (List.range' c n).map a

/-! ## Concrete environments used to instantiate the theorems -/

/-- An allocator that never fails: call `n` returns the `(n+1)`-th multiple
of 4096. -/
def bump (n : Nat) : Option Nat := some (4096 * (n + 1))

/-- The addresses handed out by `bump`. -/
def bump_addr (n : Nat) : Nat := 4096 * (n + 1)

/-- What the system reports for a regular file of `size` bytes. -/
def regular (size : Int) : FdInfo :=
  { fstat_ok := true, kind := FileKind.reg, st_size := size, ioctl_ok := false, bytes := 0 }

/-- The concatenator before anything was allocated, submitted or printed. -/
def cat.start : cat.World :=
  { heap := { calls := 0, allocated := [], freed := [] }, ring := [], out := [],
    mem := fun _ _ => 0 }

/-- The copier before anything was allocated or submitted. -/
def cp.start : cp.World :=
  { heap := { calls := 0, allocated := [], freed := [] }, read_ring := [], write_ring := [],
    mem := fun _ _ => 0 }

/-- What the system reports for a pipe: `fstat` succeeds, the type is neither
a block device nor a regular file. -/
def pipe_fd : FdInfo :=
  { fstat_ok := true, kind := FileKind.other, st_size := 0, ioctl_ok := false, bytes := 0 }

/-- An allocator whose first call succeeds and whose later calls fail. -/
def one_shot (n : Nat) : Option Nat := if n = 0 then some 4096 else none

/-- The environment of the concatenator for a regular file holding `content`
that opens as descriptor `fd`: the size reported is the length of the
content, `malloc` succeeds, the kernel completes the read as section 4.3 of
the specification describes, and the wait returns 0. -/
def cat.plain (fd : Int) (content : List Byte) : cat.FileEnv :=
  { fd := fd, info := regular content.length, malloc_ok := true,
    kernel := kernel_readv content, wait_ret := 0 }

/-- The environment of the copier for a regular source file holding
`content`: three arguments, both rings initialise, both files open, the size
reported is the length of the content, `malloc` succeeds, the kernel
completes the read as section 4.3 describes and reports the write complete
with the number of bytes gathered, and both waits return 0. -/
def cp.plain (infd outfd : Int) (content : List Byte) : cp.Env :=
  { argc := 3, read_init := 0, write_init := 0, infd := infd, fstat_ok := true,
    outfd := outfd, info := regular content.length, malloc_ok := true,
    read_kernel := kernel_readv content, read_wait := 0,
    write_kernel := fun s mem => ((kernel_writev s mem).length : Int), write_wait := 0 }

/-- Three bytes of content. -/
def hi : List Byte := [72, 105, 10]

/-! ## The block-filling loop -/

theorem set_mid {α : Type} (pre : List α) (x y : α) (rest : List α) :
    (pre ++ x :: rest).set pre.length y = pre ++ y :: rest := by
  induction pre with
  | nil => simp
  | cons p ps ih => simp [ih]

theorem built_nil (size : Int) : built [] size = [] := rfl

theorem segs_of_cons (b : Nat) (bs : List Nat) (size : Int) :
    segs_of (b :: bs) size
      = ⟨b, (min size BLOCK_SZ).toNat⟩ :: segs_of bs (size - BLOCK_SZ) := by
  simp [segs_of, seg_lens]

theorem built_cons (b : Nat) (bs : List Nat) (size : Int) :
    built (b :: bs) size
      = some ⟨b, (min size BLOCK_SZ).toNat⟩ :: built bs (size - BLOCK_SZ) := by
  simp [built, segs_of_cons]

theorem fill_steps (alloc : Nat → Option Nat) (bufs : List Nat) :
    ∀ (fuel : Nat) (size : Int) (pre rest : Table) (h : Heap),
      (∀ j (hj : j < bufs.length), alloc (h.calls + j) = some (bufs.get ⟨j, hj⟩)) →
      BLOCK_SZ * (bufs.length : Int) < size + BLOCK_SZ →
      fill_loop alloc (fuel + bufs.length) size pre.length
          (pre ++ List.replicate bufs.length none ++ rest) h
        = fill_loop alloc fuel (size - BLOCK_SZ * bufs.length) (pre.length + bufs.length)
            (pre ++ built bufs size ++ rest)
            { calls := h.calls + bufs.length, allocated := h.allocated ++ bufs,
              freed := h.freed } := by
  induction bufs with
  | nil =>
    intro fuel size pre rest h _ _
    simp [built_nil]
  | cons b bs ih =>
    intro fuel size pre rest h hal hsz
    have h0 : alloc h.calls = some b := by
      have h00 := hal 0 (by simp)
      simp at h00
      exact h00
    have hpos : size > 0 := by
      simp only [List.length_cons, BLOCK_SZ] at hsz
      simp only [BLOCK_SZ] at *
      push_cast at hsz
      omega
    have hlen : pre.length < (pre ++ List.replicate (bs.length + 1) none ++ rest).length := by
      simp
    have e1 : fuel + (b :: bs).length = (fuel + bs.length) + 1 := by simp; omega
    rw [e1, fill_loop, if_pos hpos, h0]
    simp only [List.length_cons]
    rw [if_pos hlen]
    have e2 : (pre ++ List.replicate (bs.length + 1) none ++ rest).set pre.length
          (some ⟨b, (min size BLOCK_SZ).toNat⟩)
        = (pre ++ [some ⟨b, (min size BLOCK_SZ).toNat⟩]) ++ List.replicate bs.length none ++ rest := by
      have := set_mid pre (none : Option iovec) (some ⟨b, (min size BLOCK_SZ).toNat⟩)
        (List.replicate bs.length none ++ rest)
      simp [List.replicate_succ]
    rw [e2]
    have hl : pre.length + 1 = (pre ++ [some (iovec.mk b (min size BLOCK_SZ).toNat)]).length := by simp
    rw [hl, ih fuel (size - BLOCK_SZ) _ rest
      { calls := h.calls + 1, allocated := h.allocated ++ [b], freed := h.freed }]
    · rw [built_cons]
      congr 1
      · push_cast; ring
      · simp; omega
      · simp
      · simp; omega
    · intro j hj
      have := hal (j + 1) (by simp; omega)
      simp only [List.get_eq_getElem, List.getElem_cons_succ] at this
      simp only [List.get_eq_getElem]
      rw [← this]; congr 1; omega
    · simp only [List.length_cons, BLOCK_SZ] at hsz
      simp only [BLOCK_SZ]
      push_cast at hsz
      omega

theorem fill_loop_stop (alloc : Nat → Option Nat) (fuel : Nat) (size : Int) (block : Nat)
    (tbl : Table) (h : Heap) (hs : size ≤ 0) :
    fill_loop alloc fuel size block tbl h = Fill.done tbl h := by
  have hn : ¬ size > 0 := by omega
  cases fuel <;> simp [fill_loop, hn]

theorem block_count_of_nonneg (S : Int) (hS : 0 ≤ S) :
    block_count S = (S + 4095) / 4096 := by
  unfold block_count BLOCK_SZ
  rw [Int.tmod_eq_emod hS (by decide), Int.tdiv_eq_ediv hS (by decide)]
  split <;> omega

theorem block_count_eq_ceil (S : Int) (hS : 0 ≤ S) :
    block_count S = ⌈(S : ℚ) / 4096⌉ := by
  rw [block_count_of_nonneg S hS]
  symm
  rw [Int.ceil_eq_iff]
  have h1 : ((4096 : Int) : ℚ) = 4096 := by norm_num
  constructor
  · rw [lt_div_iff₀ (by norm_num)]
    have : ((S + 4095) / 4096 - 1) * 4096 < S := by omega
    have h2 : ((((S + 4095) / 4096 - 1) * 4096 : Int) : ℚ) < (S : ℚ) := by exact_mod_cast this
    push_cast at h2
    linarith
  · rw [div_le_iff₀ (by norm_num)]
    have : S ≤ ((S + 4095) / 4096) * 4096 := by omega
    have h2 : (S : ℚ) ≤ ((((S + 4095) / 4096) * 4096 : Int) : ℚ) := by exact_mod_cast this
    push_cast at h2
    linarith

theorem fill_all (alloc : Nat → Option Nat) (bufs : List Nat) (S : Int) (h : Heap)
    (hS : 0 ≤ S) (hn : bufs.length = (block_count S).toNat)
    (hal : ∀ j (hj : j < bufs.length), alloc (h.calls + j) = some (bufs.get ⟨j, hj⟩)) :
    fill_loop alloc S.toNat S 0 (List.replicate (block_count S).toNat none) h
      = Fill.done (built bufs S)
          { calls := h.calls + bufs.length, allocated := h.allocated ++ bufs,
            freed := h.freed } := by
  have hb := block_count_of_nonneg S hS
  have hle : bufs.length ≤ S.toNat := by rw [hn, hb]; omega
  have hf : S.toNat = (S.toNat - bufs.length) + bufs.length := by omega
  have hlt : BLOCK_SZ * (bufs.length : Int) < S + BLOCK_SZ := by
    rw [hn, hb]; simp only [BLOCK_SZ]; omega
  have := fill_steps alloc bufs (S.toNat - bufs.length) S [] [] h hal hlt
  simp only [List.nil_append, List.append_nil, List.length_nil, Nat.zero_add] at this
  rw [← hn, hf, this]
  apply fill_loop_stop
  rw [hn, hb]; simp only [BLOCK_SZ]; omega

theorem fill_fail (alloc : Nat → Option Nat) (bufs : List Nat) (S : Int) (h : Heap)
    (hk : (bufs.length : Int) < block_count S) (hS : 0 ≤ S)
    (hal : ∀ j (hj : j < bufs.length), alloc (h.calls + j) = some (bufs.get ⟨j, hj⟩))
    (hno : alloc (h.calls + bufs.length) = none) :
    ∃ tbl, fill_loop alloc S.toNat S 0 (List.replicate (block_count S).toNat none) h
      = Fill.nomem tbl
          { calls := h.calls + bufs.length + 1, allocated := h.allocated ++ bufs,
            freed := h.freed } := by
  have hb := block_count_of_nonneg S hS
  rw [hb] at hk
  have hf : S.toNat = (S.toNat - bufs.length - 1 + 1) + bufs.length := by omega
  have hlt : BLOCK_SZ * (bufs.length : Int) < S + BLOCK_SZ := by
    simp only [BLOCK_SZ]; omega
  have hr : List.replicate (block_count S).toNat (none : Option iovec)
      = [] ++ List.replicate bufs.length none
          ++ List.replicate ((block_count S).toNat - bufs.length) none := by
    rw [List.nil_append, ← List.replicate_add]
    congr 1
    rw [hb]; omega
  have := fill_steps alloc bufs (S.toNat - bufs.length - 1 + 1) S []
    (List.replicate ((block_count S).toNat - bufs.length) none) h hal hlt
  rw [hr, hf]
  simp only [List.length_nil] at this
  rw [this]
  have hpos : S - BLOCK_SZ * (bufs.length : Int) > 0 := by simp only [BLOCK_SZ]; omega
  rw [fill_loop, if_pos hpos]
  simp only [hno]
  exact ⟨_, rfl⟩

theorem seg_lens_length (n : Nat) : ∀ size : Int, (seg_lens n size).length = n := by
  induction n with
  | zero => intro size; rfl
  | succ n ih => intro size; simp [seg_lens, ih]

theorem segs_of_length (bufs : List Nat) (size : Int) :
    (segs_of bufs size).length = bufs.length := by
  simp [segs_of, seg_lens_length]

theorem segs_of_lens (bufs : List Nat) : ∀ size : Int,
    (segs_of bufs size).map iovec.iov_len = seg_lens bufs.length size := by
  induction bufs with
  | nil => intro size; rfl
  | cons b bs ih => intro size; simp [segs_of_cons, seg_lens, ih]

theorem segs_of_bases (bufs : List Nat) : ∀ size : Int,
    (segs_of bufs size).map iovec.iov_base = bufs := by
  induction bufs with
  | nil => intro size; rfl
  | cons b bs ih => intro size; simp [segs_of_cons, ih]

theorem seg_lens_sum (n : Nat) : ∀ size : Int, 0 ≤ size →
    BLOCK_SZ * (n : Int) < size + BLOCK_SZ →
    (((seg_lens n size).sum : Nat) : Int) = min size (BLOCK_SZ * n) := by
  induction n with
  | zero => intro size h0 _; simp [seg_lens, BLOCK_SZ]; omega
  | succ n ih =>
    intro size h0 h1
    simp only [BLOCK_SZ] at *
    push_cast at h1
    cases n with
    | zero => simp [seg_lens, BLOCK_SZ]; omega
    | succ m =>
      have hi := ih (size - 4096) (by push_cast at h1; omega) (by push_cast at h1 ⊢; omega)
      rw [seg_lens, List.sum_cons]
      push_cast at hi h1 ⊢
      simp only [BLOCK_SZ]
      rw [hi]
      omega

theorem seg_lens_get (n : Nat) : ∀ (size : Int) (i : Nat), i < n →
    (seg_lens n size)[i]? = some (min (size - BLOCK_SZ * i) BLOCK_SZ).toNat := by
  induction n with
  | zero => intro size i hi; omega
  | succ n ih =>
    intro size i hi
    cases i with
    | zero => simp [seg_lens]
    | succ j =>
      rw [seg_lens, List.getElem?_cons_succ, ih (size - BLOCK_SZ) j (by omega)]
      congr 3
      push_cast; ring

theorem fresh_length (a : Nat → Nat) (c n : Nat) : (fresh a c n).length = n := by
  simp [fresh]

theorem fresh_get (a : Nat → Nat) (c n j : Nat) (hj : j < (fresh a c n).length) :
    (fresh a c n).get ⟨j, hj⟩ = a (c + j) := by
  simp [fresh]

/-! ## `read_file` when every allocation succeeds -/

theorem cat_read_file_ok (alloc : Nat → Option Nat) (a : Nat → Nat)
    (hok : ∀ n, alloc n = some (a n)) (info : FdInfo) (S : Int)
    (hsz : get_file_size info = S) (hS : 0 ≤ S) (fd : Int) (w : cat.World) :
    cat.read_file alloc true info fd w
      = Outcome.ret 0
          { heap := { calls := w.heap.calls + (block_count S).toNat,
                      allocated := w.heap.allocated
                        ++ fresh a w.heap.calls (block_count S).toNat,
                      freed := w.heap.freed },
            ring := w.ring ++
              [{ op := Opcode.readv, fd := fd,
                 iovecs := built (fresh a w.heap.calls (block_count S).toNat) S,
                 nr_vecs := toUInt32 (block_count S), offset := 0,
                 user_data :=
                   { fd := fd, size := toInt32 S,
                     iovecs := built (fresh a w.heap.calls (block_count S).toNat) S } }],
            out := w.out, mem := w.mem } := by
  have hf := fill_all alloc (fresh a w.heap.calls (block_count S).toNat) S w.heap hS
    (fresh_length _ _ _) (fun j hj => by rw [fresh_get]; exact hok _)
  rw [fresh_length] at hf
  simp only [cat.read_file, hsz, hf]
  rfl

theorem cp_read_file_ok (alloc : Nat → Option Nat) (a : Nat → Nat)
    (hok : ∀ n, alloc n = some (a n)) (info : FdInfo) (S : Int)
    (hsz : get_file_size info = S) (hS : 0 ≤ S) (infd outfd : Int) (w : cp.World) :
    cp.read_file alloc true info infd outfd w
      = Outcome.ret 0
          { heap := { calls := w.heap.calls + (block_count S).toNat,
                      allocated := w.heap.allocated
                        ++ fresh a w.heap.calls (block_count S).toNat,
                      freed := w.heap.freed },
            read_ring := w.read_ring ++
              [{ op := Opcode.readv, fd := infd,
                 iovecs := built (fresh a w.heap.calls (block_count S).toNat) S,
                 nr_vecs := toUInt32 (block_count S), offset := 0,
                 user_data :=
                   { infd := infd, outfd := outfd, size := toInt32 S,
                     blocks := toInt32 (block_count S),
                     iovecs := built (fresh a w.heap.calls (block_count S).toNat) S } }],
            write_ring := w.write_ring, mem := w.mem } := by
  have hf := fill_all alloc (fresh a w.heap.calls (block_count S).toNat) S w.heap hS
    (fresh_length _ _ _) (fun j hj => by rw [fresh_get]; exact hok _)
  rw [fresh_length] at hf
  simp only [cp.read_file, hsz, hf]
  rfl

/-- Facts about the segments that `read_file` writes for a file of `S ≥ 0`
bytes: their number, and the sum of their lengths. -/
theorem segs_count_sum (bufs : List Nat) (S : Int) (hS : 0 ≤ S)
    (hn : bufs.length = (block_count S).toNat) :
    ((segs_of bufs S).length : Int) = ⌈(S : ℚ) / 4096⌉ ∧
    ((((segs_of bufs S).map iovec.iov_len).sum : Nat) : Int) = S := by
  have hb := block_count_of_nonneg S hS
  constructor
  · rw [segs_of_length, hn, ← block_count_eq_ceil S hS, hb]; omega
  · rw [segs_of_lens, seg_lens_sum _ S hS]
    · rw [hn, hb]; simp only [BLOCK_SZ]; omega
    · rw [hn, hb]; simp only [BLOCK_SZ]; omega

/-- Lengths of the segments that `read_file` writes for a file of `S > 0`
bytes: 4096 for every segment but the last, the remainder for the last. -/
theorem segs_shape (bufs : List Nat) (S : Int) (hS : 0 < S)
    (hn : bufs.length = (block_count S).toNat) :
    (∀ i, i + 1 < (segs_of bufs S).length →
        ((segs_of bufs S)[i]?).map iovec.iov_len = some 4096) ∧
    ((segs_of bufs S)[(segs_of bufs S).length - 1]?).map iovec.iov_len
      = some (if S % 4096 = 0 then 4096 else (S % 4096).toNat) := by
  have hb := block_count_of_nonneg S (le_of_lt hS)
  rw [hb] at hn
  have hg : ∀ i, i < bufs.length → ((segs_of bufs S)[i]?).map iovec.iov_len
      = some (min (S - BLOCK_SZ * i) BLOCK_SZ).toNat := by
    intro i hi
    rw [← List.getElem?_map, segs_of_lens, seg_lens_get _ _ _ hi]
  rw [segs_of_length]
  constructor
  · intro i hi
    rw [hg i (by omega)]
    simp only [BLOCK_SZ]
    congr 1
    omega
  · rw [hg _ (by omega)]
    simp only [BLOCK_SZ]
    congr 1
    split <;> omega

/-- The iteration bound that `read_file` passes to the loop is never reached:
with at least `size` iterations allowed the loop ends by its own test, by a
failed allocation, or by a store outside the table. -/
theorem fill_loop_in_budget (alloc : Nat → Option Nat) :
    ∀ (fuel : Nat) (size : Int) (block : Nat) (tbl : Table) (h : Heap),
      size ≤ (fuel : Int) → fill_loop alloc fuel size block tbl h ≠ Fill.fuel := by
  intro fuel
  induction fuel with
  | zero =>
    intro size block tbl h hle
    have hn : ¬ size > 0 := by simp at hle; omega
    simp [fill_loop, hn]
  | succ n ih =>
    intro size block tbl h hle
    rw [fill_loop]
    split
    · split
      · simp
      · split
        · apply ih
          simp only [BLOCK_SZ]
          push_cast at hle
          omega
        · simp
    · simp

/-- Function `read_file` of cat.c always ends: for no input does the model
report an exhausted iteration bound. -/
theorem cat_read_file_total (alloc : Nat → Option Nat) (m : Bool) (info : FdInfo)
    (fd : Int) (w : cat.World) :
    (∃ code w1, cat.read_file alloc m info fd w = Outcome.ret code w1) ∨
      cat.read_file alloc m info fd w = Outcome.fault := by
  unfold cat.read_file
  have hb := fill_loop_in_budget alloc (get_file_size info).toNat (get_file_size info) 0
    (List.replicate (block_count (get_file_size info)).toNat none) w.heap (by omega)
  cases m with
  | false => exact Or.inl ⟨_, _, rfl⟩
  | true =>
    simp only [Bool.true_eq_false, if_false]
    split
    · rename_i heq; exact absurd heq hb
    · exact Or.inr rfl
    · exact Or.inl ⟨_, _, rfl⟩
    · exact Or.inl ⟨_, _, rfl⟩

/-- Function `read_file` of cp.c always ends. -/
theorem cp_read_file_total (alloc : Nat → Option Nat) (m : Bool) (info : FdInfo)
    (infd outfd : Int) (w : cp.World) :
    (∃ code w1, cp.read_file alloc m info infd outfd w = Outcome.ret code w1) ∨
      cp.read_file alloc m info infd outfd w = Outcome.fault := by
  unfold cp.read_file
  have hb := fill_loop_in_budget alloc (get_file_size info).toNat (get_file_size info) 0
    (List.replicate (block_count (get_file_size info)).toNat none) w.heap (by omega)
  cases m with
  | false => exact Or.inl ⟨_, _, rfl⟩
  | true =>
    simp only [Bool.true_eq_false, if_false]
    split
    · rename_i heq; exact absurd heq hb
    · exact Or.inr rfl
    · exact Or.inl ⟨_, _, rfl⟩
    · exact Or.inl ⟨_, _, rfl⟩

/-! ## Scatter and gather over a written table -/

theorem range_map_getD (content : List Byte) (d : Nat → Byte) :
    ∀ (n off : Nat), off + n ≤ content.length →
      (List.range n).map (fun j => (content[off + j]?).getD (d j))
        = (content.drop off).take n := by
  intro n off h
  apply List.ext_getElem?
  intro i
  by_cases hi : i < n
  · rw [List.getElem?_map, List.getElem?_range hi, List.getElem?_take_of_lt hi,
      List.getElem?_drop]
    have hlt : off + i < content.length := by omega
    simp [List.getElem?_eq_getElem hlt]
  · have hn : n ≤ i := by omega
    rw [List.getElem?_eq_none (by simp; omega), List.getElem?_eq_none (by simp; omega)]

theorem scatter_other (content : List Byte) (segs : List iovec) :
    ∀ (off : Nat) (mem : Mem) (b j : Nat), b ∉ segs.map iovec.iov_base →
      scatter content (segs.map some) off mem b j = mem b j := by
  induction segs with
  | nil => intro off mem b j _; rfl
  | cons v rest ih =>
    intro off mem b j hb
    simp only [List.map_cons, List.mem_cons, not_or] at hb
    simp only [List.map_cons, scatter]
    rw [ih _ _ b j hb.2]
    simp [fill_seg, hb.1]

theorem gather_scatter (content : List Byte) (segs : List iovec) :
    ∀ (off : Nat) (mem : Mem), (segs.map iovec.iov_base).Nodup →
      off + (segs.map iovec.iov_len).sum ≤ content.length →
      gather (scatter content (segs.map some) off mem) (segs.map some)
        = (content.drop off).take (segs.map iovec.iov_len).sum := by
  induction segs with
  | nil => intro off mem _ _; simp [gather]
  | cons v rest ih =>
    intro off mem hnd hle
    simp only [List.map_cons, List.nodup_cons, List.sum_cons] at hnd hle
    simp only [List.map_cons, scatter, gather, List.sum_cons]
    rw [ih (off + v.iov_len) (fill_seg content off v mem) hnd.2 (by omega)]
    have hhead : (List.range v.iov_len).map
        (scatter content (rest.map some) (off + v.iov_len) (fill_seg content off v mem)
          v.iov_base)
        = (content.drop off).take v.iov_len := by
      rw [← range_map_getD content (fun j => mem v.iov_base j) v.iov_len off (by omega)]
      apply List.map_congr_left
      intro j hj
      rw [scatter_other content rest _ _ _ _ hnd.1]
      simp [fill_seg, List.mem_range.mp hj]
    rw [hhead, List.take_add, List.drop_drop]

theorem table_bytes_map_some (segs : List iovec) :
    table_bytes (segs.map some) = (segs.map iovec.iov_len).sum := by
  induction segs with
  | nil => rfl
  | cons v rest ih => simp [table_bytes, ih]

theorem fresh_nodup (a : Nat → Nat) (ha : Function.Injective a) (c n : Nat) :
    (fresh a c n).Nodup :=
  List.Nodup.map ha (List.nodup_range' c n)

theorem toUInt32_small (x : Int) (h0 : 0 ≤ x) (h1 : x < 4294967296) : toUInt32 x = x := by
  unfold toUInt32; omega

theorem toInt32_small (x : Int) (h0 : -2147483648 ≤ x) (h1 : x < 2147483648) :
    toInt32 x = x := by
  unfold toInt32; omega

theorem built_take_all (bufs : List Nat) (S : Int) (n : Nat) (hn : n = bufs.length) :
    (built bufs S).take n = built bufs S := by
  apply List.take_of_length_le
  simp [built, segs_of_length, hn]

/-- The bytes gathered from a freshly built table after the kernel scattered
`content` into it are `content`, when the buffers are distinct and the block
count is the one of `content.length`. -/
theorem gather_scatter_built (content : List Byte) (bufs : List Nat) (mem : Mem)
    (hnd : bufs.Nodup) (hn : bufs.length = (block_count content.length).toNat) :
    gather (scatter content (built bufs content.length) 0 mem) (built bufs content.length)
      = content := by
  have hc := segs_count_sum bufs (content.length : Int) (by omega) hn
  have hsum : ((segs_of bufs content.length).map iovec.iov_len).sum = content.length := by
    exact_mod_cast hc.2
  unfold built
  rw [gather_scatter content _ 0 mem (by rw [segs_of_bases]; exact hnd) (by omega), hsum]
  simp

/-! ## The completion handlers over a written table -/

theorem map_some_get (segs : List iovec) (i : Nat) (hi : i < segs.length) :
    (segs.map some)[i]? = some (some (segs.get ⟨i, hi⟩)) := by
  rw [List.getElem?_map, List.getElem?_eq_getElem hi]
  rfl

theorem drop_take_succ (segs : List iovec) (i k : Nat) (hi : i < segs.length) :
    (segs.drop i).take (k + 1) = segs.get ⟨i, hi⟩ :: (segs.drop (i + 1)).take k := by
  rw [List.drop_eq_getElem_cons hi, List.take_succ_cons]
  rfl

theorem release_eq (segs : List iovec) :
    ∀ (k i : Nat) (h : Heap), i + k ≤ segs.length →
      cp.release (segs.map some) k i h
        = some { h with
                 freed := h.freed ++ ((segs.drop i).take k).map iovec.iov_base } := by
  intro k
  induction k with
  | zero => intro i h _; simp [cp.release]
  | succ n ih =>
    intro i h hle
    have hi : i < segs.length := by omega
    rw [cp.release, map_some_get segs i hi]
    simp only
    rw [ih (i + 1) _ (by omega), drop_take_succ segs i n hi]
    simp

theorem get_file_size_regular (n : Int) : get_file_size (regular n) = n := rfl

/-- Function `handle_write_cqes` over a written table whose length is the stored block
count: every buffer is freed, in index order. -/
theorem cp_handle_write_ok (res infd outfd sz blocks : Int) (segs : List iovec)
    (w : cp.World) (hn : blocks.toNat = segs.length) :
    cp.handle_write_cqes 0
        { res := res, user_data := { infd := infd, outfd := outfd, size := sz,
                                     blocks := blocks, iovecs := segs.map some } } w
      = Outcome.ret 0
          { w with heap := { w.heap with freed := w.heap.freed ++ segs.map iovec.iov_base } } := by
  simp only [cp.handle_write_cqes, ne_eq, not_true_eq_false, if_false, hn]
  rw [release_eq segs segs.length 0 w.heap (by omega)]
  simp

/-! ## Request-context construction (claims C1, C2) -/

/-- The part of the context that is exact for every size.  For every file
size `S ≥ 0`, when the allocations succeed, `read_file` of cat.c and of cp.c
returns 0 having submitted one request whose segment table has exactly
`ceil(S / 4096)` slots, every one of them written (the table is
`segs.map some`, so indices `0 .. count-1` and no other), one freshly
allocated buffer per slot, and the lengths of the segments add up to `S`.
The counts that the program stores are conversions of that number: the
`unsigned` vector count of the submission, and in cp.c the `int` field
`blocks`. -/
theorem read_file_table_and_sum (alloc : Nat → Option Nat) (a : Nat → Nat)
    (hok : ∀ n, alloc n = some (a n)) (info : FdInfo) (S : Int)
    (hsz : get_file_size info = S) (hS : 0 ≤ S) (fd outfd : Int)
    (w : cat.World) (w' : cp.World) :
    (∃ (w1 : cat.World) (s : Sqe cat.cat_data) (segs : List iovec),
      cat.read_file alloc true info fd w = Outcome.ret 0 w1 ∧
      w1.ring = w.ring ++ [s] ∧
      s.user_data.iovecs = segs.map some ∧ s.iovecs = s.user_data.iovecs ∧
      w1.heap.allocated = w.heap.allocated ++ segs.map iovec.iov_base ∧
      (segs.length : Int) = ⌈(S : ℚ) / 4096⌉ ∧
      (((segs.map iovec.iov_len).sum : Nat) : Int) = S ∧
      s.nr_vecs = toUInt32 ⌈(S : ℚ) / 4096⌉) ∧
    (∃ (w2 : cp.World) (s : Sqe cp.cp_data) (segs : List iovec),
      cp.read_file alloc true info fd outfd w' = Outcome.ret 0 w2 ∧
      w2.read_ring = w'.read_ring ++ [s] ∧
      s.user_data.iovecs = segs.map some ∧ s.iovecs = s.user_data.iovecs ∧
      w2.heap.allocated = w'.heap.allocated ++ segs.map iovec.iov_base ∧
      (segs.length : Int) = ⌈(S : ℚ) / 4096⌉ ∧
      (((segs.map iovec.iov_len).sum : Nat) : Int) = S ∧
      s.nr_vecs = toUInt32 ⌈(S : ℚ) / 4096⌉ ∧
      s.user_data.blocks = toInt32 ⌈(S : ℚ) / 4096⌉) := by
  have hceil := block_count_eq_ceil S hS
  constructor
  · have hc := segs_count_sum (fresh a w.heap.calls (block_count S).toNat) S hS
      (fresh_length _ _ _)
    exact ⟨_, _, segs_of (fresh a w.heap.calls (block_count S).toNat) S,
      cat_read_file_ok alloc a hok info S hsz hS fd w, rfl, rfl, rfl,
      by rw [segs_of_bases], hc.1, hc.2, by rw [← hceil]⟩
  · have hc := segs_count_sum (fresh a w'.heap.calls (block_count S).toNat) S hS
      (fresh_length _ _ _)
    exact ⟨_, _, segs_of (fresh a w'.heap.calls (block_count S).toNat) S,
      cp_read_file_ok alloc a hok info S hsz hS fd outfd w', rfl, rfl, rfl,
      by rw [segs_of_bases], hc.1, hc.2, by rw [← hceil], by rw [← hceil]⟩

/-- Instance at a regular file of 4097 bytes with the allocator `bump`. -/
theorem read_file_table_and_sum_witness :
    (∃ (w1 : cat.World) (s : Sqe cat.cat_data) (segs : List iovec),
      cat.read_file bump true (regular 4097) 3 cat.start = Outcome.ret 0 w1 ∧
      w1.ring = cat.start.ring ++ [s] ∧
      s.user_data.iovecs = segs.map some ∧ s.iovecs = s.user_data.iovecs ∧
      w1.heap.allocated = cat.start.heap.allocated ++ segs.map iovec.iov_base ∧
      (segs.length : Int) = ⌈((4097 : Int) : ℚ) / 4096⌉ ∧
      (((segs.map iovec.iov_len).sum : Nat) : Int) = 4097 ∧
      s.nr_vecs = toUInt32 ⌈((4097 : Int) : ℚ) / 4096⌉) ∧
    (∃ (w2 : cp.World) (s : Sqe cp.cp_data) (segs : List iovec),
      cp.read_file bump true (regular 4097) 3 4 cp.start = Outcome.ret 0 w2 ∧
      w2.read_ring = cp.start.read_ring ++ [s] ∧
      s.user_data.iovecs = segs.map some ∧ s.iovecs = s.user_data.iovecs ∧
      w2.heap.allocated = cp.start.heap.allocated ++ segs.map iovec.iov_base ∧
      (segs.length : Int) = ⌈((4097 : Int) : ℚ) / 4096⌉ ∧
      (((segs.map iovec.iov_len).sum : Nat) : Int) = 4097 ∧
      s.nr_vecs = toUInt32 ⌈((4097 : Int) : ℚ) / 4096⌉ ∧
      s.user_data.blocks = toInt32 ⌈((4097 : Int) : ℚ) / 4096⌉) :=
  read_file_table_and_sum bump bump_addr (fun _ => rfl) (regular 4097) 4097
    (by decide) (by decide) 3 4 cat.start cp.start

/-- Below 2 GiB the stored counts are exact as well.  For every file size
`0 ≤ S < 2^31`, when the allocations succeed, the request built by `read_file`
has vector count `ceil(S / 4096)`; cat.c stores `S` itself in `int size`, from
which `handle_cqes` recomputes `ceil(S / 4096)`, and cp.c stores
`ceil(S / 4096)` in `int blocks`. -/
theorem read_file_counts_below_two_gib (alloc : Nat → Option Nat) (a : Nat → Nat)
    (hok : ∀ n, alloc n = some (a n)) (info : FdInfo) (S : Int)
    (hsz : get_file_size info = S) (hS : 0 ≤ S) (hlt : S < 2147483648) (fd outfd : Int)
    (w : cat.World) (w' : cp.World) :
    (∃ (w1 : cat.World) (s : Sqe cat.cat_data),
      cat.read_file alloc true info fd w = Outcome.ret 0 w1 ∧
      w1.ring = w.ring ++ [s] ∧
      (s.iovecs.length : Int) = ⌈(S : ℚ) / 4096⌉ ∧
      s.nr_vecs = ⌈(S : ℚ) / 4096⌉ ∧
      s.user_data.size = S ∧
      block_count s.user_data.size = ⌈(S : ℚ) / 4096⌉) ∧
    (∃ (w2 : cp.World) (s : Sqe cp.cp_data),
      cp.read_file alloc true info fd outfd w' = Outcome.ret 0 w2 ∧
      w2.read_ring = w'.read_ring ++ [s] ∧
      (s.iovecs.length : Int) = ⌈(S : ℚ) / 4096⌉ ∧
      s.nr_vecs = ⌈(S : ℚ) / 4096⌉ ∧
      s.user_data.size = S ∧
      s.user_data.blocks = ⌈(S : ℚ) / 4096⌉) := by
  have hceil := block_count_eq_ceil S hS
  have hb := block_count_of_nonneg S hS
  have hu : toUInt32 (block_count S) = block_count S :=
    toUInt32_small _ (by rw [hb]; omega) (by rw [hb]; omega)
  have hi : toInt32 (block_count S) = block_count S :=
    toInt32_small _ (by rw [hb]; omega) (by rw [hb]; omega)
  have hs : toInt32 S = S := toInt32_small _ (by omega) hlt
  rw [← hceil]
  constructor
  · refine ⟨_, _, cat_read_file_ok alloc a hok info S hsz hS fd w, rfl, ?_, hu, hs, ?_⟩
    · simp only [built, List.length_map, segs_of_length, fresh_length]; rw [hb]; omega
    · simp only [hs]
  · refine ⟨_, _, cp_read_file_ok alloc a hok info S hsz hS fd outfd w', rfl, ?_, hu, hs, hi⟩
    simp only [built, List.length_map, segs_of_length, fresh_length]; rw [hb]; omega

/-- Instance below 2 GiB: a regular file of 4097 bytes. -/
theorem read_file_counts_below_two_gib_witness :
    (∃ (w1 : cat.World) (s : Sqe cat.cat_data),
      cat.read_file bump true (regular 4097) 3 cat.start = Outcome.ret 0 w1 ∧
      w1.ring = cat.start.ring ++ [s] ∧
      (s.iovecs.length : Int) = ⌈((4097 : Int) : ℚ) / 4096⌉ ∧
      s.nr_vecs = ⌈((4097 : Int) : ℚ) / 4096⌉ ∧
      s.user_data.size = 4097 ∧
      block_count s.user_data.size = ⌈((4097 : Int) : ℚ) / 4096⌉) ∧
    (∃ (w2 : cp.World) (s : Sqe cp.cp_data),
      cp.read_file bump true (regular 4097) 3 4 cp.start = Outcome.ret 0 w2 ∧
      w2.read_ring = cp.start.read_ring ++ [s] ∧
      (s.iovecs.length : Int) = ⌈((4097 : Int) : ℚ) / 4096⌉ ∧
      s.nr_vecs = ⌈((4097 : Int) : ℚ) / 4096⌉ ∧
      s.user_data.size = 4097 ∧
      s.user_data.blocks = ⌈((4097 : Int) : ℚ) / 4096⌉) :=
  read_file_counts_below_two_gib bump bump_addr (fun _ => rfl) (regular 4097) 4097
    (by decide) (by decide) (by decide) 3 4 cat.start cp.start

/-- The same narrowing in cp.c, at a size of 2^43 bytes: the table has 2^31
slots and the `int` field `blocks` holds -2147483648. -/
theorem cp_blocks_field_wraps :
    ∃ (w2 : cp.World) (s : Sqe cp.cp_data),
      cp.read_file bump true (regular 8796093022208) 3 4 cp.start = Outcome.ret 0 w2 ∧
      w2.read_ring = [s] ∧
      s.iovecs.length = 2147483648 ∧
      s.user_data.blocks = -2147483648 := by
  have hb : block_count 8796093022208 = 2147483648 := by decide
  refine ⟨_, _, cp_read_file_ok bump bump_addr (fun _ => rfl) (regular 8796093022208)
    8796093022208 rfl (by decide) 3 4 cp.start, rfl, ?_, ?_⟩
  · simp only [built, List.length_map, segs_of_length, fresh_length, hb]; decide
  · simp only [hb]; decide

/-- What `read_file` of cat.c submits for a regular file of 4097 bytes, by
evaluation: two slots, lengths 4096 and 1. -/
theorem cat_read_file_4097 :
    ∃ w1, cat.read_file bump true (regular 4097) 3 cat.start = Outcome.ret 0 w1 ∧
      w1.heap = { calls := 2, allocated := [4096, 8192], freed := [] } ∧
      w1.ring = [{ op := Opcode.readv, fd := 3,
                   iovecs := [some ⟨4096, 4096⟩, some ⟨8192, 1⟩], nr_vecs := 2, offset := 0,
                   user_data := { fd := 3, size := 4097,
                                  iovecs := [some ⟨4096, 4096⟩, some ⟨8192, 1⟩] } }] :=
  ⟨_, rfl, by decide, by decide⟩

/-- C2. For every file size `S > 0`, when the allocations succeed, the segment
table submitted by `read_file` (cat.c and cp.c) has `ceil(S / 4096)` written
slots; every segment except the last has length 4096, and the last has length
`S mod 4096` when that is non-zero and 4096 otherwise. -/
theorem read_file_segment_lengths (alloc : Nat → Option Nat) (a : Nat → Nat)
    (hok : ∀ n, alloc n = some (a n)) (info : FdInfo) (S : Int)
    (hsz : get_file_size info = S) (hS : 0 < S) (fd outfd : Int)
    (w : cat.World) (w' : cp.World) :
    (∃ (w1 : cat.World) (s : Sqe cat.cat_data) (segs : List iovec),
      cat.read_file alloc true info fd w = Outcome.ret 0 w1 ∧
      w1.ring = w.ring ++ [s] ∧
      s.user_data.iovecs = segs.map some ∧ s.iovecs = s.user_data.iovecs ∧
      (segs.length : Int) = ⌈(S : ℚ) / 4096⌉ ∧
      (∀ i, i + 1 < segs.length → (segs[i]?).map iovec.iov_len = some 4096) ∧
      (segs[segs.length - 1]?).map iovec.iov_len
        = some (if S % 4096 = 0 then 4096 else (S % 4096).toNat)) ∧
    (∃ (w2 : cp.World) (s : Sqe cp.cp_data) (segs : List iovec),
      cp.read_file alloc true info fd outfd w' = Outcome.ret 0 w2 ∧
      w2.read_ring = w'.read_ring ++ [s] ∧
      s.user_data.iovecs = segs.map some ∧ s.iovecs = s.user_data.iovecs ∧
      (segs.length : Int) = ⌈(S : ℚ) / 4096⌉ ∧
      (∀ i, i + 1 < segs.length → (segs[i]?).map iovec.iov_len = some 4096) ∧
      (segs[segs.length - 1]?).map iovec.iov_len
        = some (if S % 4096 = 0 then 4096 else (S % 4096).toNat)) := by
  have h0 : 0 ≤ S := le_of_lt hS
  constructor
  · have hc := segs_count_sum (fresh a w.heap.calls (block_count S).toNat) S h0
      (fresh_length _ _ _)
    have hs := segs_shape (fresh a w.heap.calls (block_count S).toNat) S hS
      (fresh_length _ _ _)
    exact ⟨_, _, segs_of (fresh a w.heap.calls (block_count S).toNat) S,
      cat_read_file_ok alloc a hok info S hsz h0 fd w, rfl, rfl, rfl, hc.1, hs.1, hs.2⟩
  · have hc := segs_count_sum (fresh a w'.heap.calls (block_count S).toNat) S h0
      (fresh_length _ _ _)
    have hs := segs_shape (fresh a w'.heap.calls (block_count S).toNat) S hS
      (fresh_length _ _ _)
    exact ⟨_, _, segs_of (fresh a w'.heap.calls (block_count S).toNat) S,
      cp_read_file_ok alloc a hok info S hsz h0 fd outfd w', rfl, rfl, rfl, hc.1, hs.1, hs.2⟩

/-- Instance of C2 at a regular file of exactly 4096 bytes. -/
theorem read_file_segment_lengths_witness :
    (∃ (w1 : cat.World) (s : Sqe cat.cat_data) (segs : List iovec),
      cat.read_file bump true (regular 4096) 3 cat.start = Outcome.ret 0 w1 ∧
      w1.ring = cat.start.ring ++ [s] ∧
      s.user_data.iovecs = segs.map some ∧ s.iovecs = s.user_data.iovecs ∧
      (segs.length : Int) = ⌈((4096 : Int) : ℚ) / 4096⌉ ∧
      (∀ i, i + 1 < segs.length → (segs[i]?).map iovec.iov_len = some 4096) ∧
      (segs[segs.length - 1]?).map iovec.iov_len
        = some (if (4096 : Int) % 4096 = 0 then 4096 else ((4096 : Int) % 4096).toNat)) ∧
    (∃ (w2 : cp.World) (s : Sqe cp.cp_data) (segs : List iovec),
      cp.read_file bump true (regular 4096) 3 4 cp.start = Outcome.ret 0 w2 ∧
      w2.read_ring = cp.start.read_ring ++ [s] ∧
      s.user_data.iovecs = segs.map some ∧ s.iovecs = s.user_data.iovecs ∧
      (segs.length : Int) = ⌈((4096 : Int) : ℚ) / 4096⌉ ∧
      (∀ i, i + 1 < segs.length → (segs[i]?).map iovec.iov_len = some 4096) ∧
      (segs[segs.length - 1]?).map iovec.iov_len
        = some (if (4096 : Int) % 4096 = 0 then 4096 else ((4096 : Int) % 4096).toNat)) :=
  read_file_segment_lengths bump bump_addr (fun _ => rfl) (regular 4096) 4096
    (by decide) (by decide) 3 4 cat.start cp.start

/-- The boundary `S = 4096`, by evaluation: cat.c submits one slot of length
4096. -/
theorem cat_read_file_4096 :
    ∃ w1, cat.read_file bump true (regular 4096) 3 cat.start = Outcome.ret 0 w1 ∧
      w1.heap = { calls := 1, allocated := [4096], freed := [] } ∧
      w1.ring = [{ op := Opcode.readv, fd := 3, iovecs := [some ⟨4096, 4096⟩],
                   nr_vecs := 1, offset := 0,
                   user_data := { fd := 3, size := 4096, iovecs := [some ⟨4096, 4096⟩] } }] :=
  ⟨_, rfl, by decide, by decide⟩

/-- The boundary `S = 4096`, by evaluation: cp.c submits one slot of length
4096 and stores block count 1. -/
theorem cp_read_file_4096 :
    ∃ w2, cp.read_file bump true (regular 4096) 3 4 cp.start = Outcome.ret 0 w2 ∧
      w2.heap = { calls := 1, allocated := [4096], freed := [] } ∧
      w2.read_ring = [{ op := Opcode.readv, fd := 3, iovecs := [some ⟨4096, 4096⟩],
                        nr_vecs := 1, offset := 0,
                        user_data := { infd := 3, outfd := 4, size := 4096, blocks := 1,
                                       iovecs := [some ⟨4096, 4096⟩] } }] ∧
      w2.write_ring = [] :=
  ⟨_, rfl, by decide, by decide, by decide⟩

/-- The boundary `S = 4097`, by evaluation: cp.c submits two slots, the second
of length 1, and stores block count 2. -/
theorem cp_read_file_4097 :
    ∃ w2, cp.read_file bump true (regular 4097) 3 4 cp.start = Outcome.ret 0 w2 ∧
      w2.heap = { calls := 2, allocated := [4096, 8192], freed := [] } ∧
      w2.read_ring = [{ op := Opcode.readv, fd := 3,
                        iovecs := [some ⟨4096, 4096⟩, some ⟨8192, 1⟩],
                        nr_vecs := 2, offset := 0,
                        user_data := { infd := 3, outfd := 4, size := 4097, blocks := 2,
                                       iovecs := [some ⟨4096, 4096⟩, some ⟨8192, 1⟩] } }] ∧
      w2.write_ring = [] :=
  ⟨_, rfl, by decide, by decide, by decide⟩

/-! ## Copy round trip (claim C3) -/

theorem cp_handle_read_ok (cqe : Cqe cp.cp_data) (w : cp.World) (h : 0 ≤ cqe.res) :
    cp.handle_read_cqes 0 cqe w = Outcome.ret 0 (cp.write_file cqe.user_data w) := by
  have hn : ¬ cqe.res < 0 := by omega
  simp [cp.handle_read_cqes, hn]

/-- C3. Copy round trip: for every source content whose block count does not
exceed `IOV_MAX`, when the allocations succeed with distinct buffers and the
kernel completes the read by filling the segments in vector-index order,
`handle_read_cqes` returns 0 and `write_file` has submitted to the write ring
one write on the destination descriptor that carries the same segment table
and the same vector count as the read submitted by `read_file`, at offset 0;
the bytes that write transfers in vector order are exactly the source
content. -/
theorem copy_round_trip (alloc : Nat → Option Nat) (a : Nat → Nat)
    (hok : ∀ n, alloc n = some (a n)) (hinj : Function.Injective a)
    (content : List Byte) (info : FdInfo)
    (hsz : get_file_size info = (content.length : Int))
    (hlim : ⌈((content.length : Int) : ℚ) / 4096⌉ ≤ cp.IOV_MAX)
    (infd outfd : Int) (w : cp.World)
    (hr : w.read_ring = []) (hwr : w.write_ring = []) :
    ∃ (w1 : cp.World) (r : Sqe cp.cp_data),
      cp.read_file alloc true info infd outfd w = Outcome.ret 0 w1 ∧
      w1.read_ring = [r] ∧ w1.write_ring = [] ∧
      r.op = Opcode.readv ∧ r.fd = infd ∧ r.offset = 0 ∧
      r.nr_vecs = ⌈((content.length : Int) : ℚ) / 4096⌉ ∧
      ∃ (cqe : Cqe cp.cp_data) (w2 : cp.World),
        cp.complete_read (kernel_readv content) w1 = some (cqe, w2) ∧
        ∃ (w3 : cp.World) (q : Sqe cp.cp_data),
          cp.handle_read_cqes 0 cqe w2 = Outcome.ret 0 w3 ∧
          w3.write_ring = [q] ∧ q.op = Opcode.writev ∧ q.fd = outfd ∧
          q.iovecs = r.iovecs ∧ q.nr_vecs = r.nr_vecs ∧ q.offset = 0 ∧
          q.user_data = r.user_data ∧
          kernel_writev q w3.mem = content := by
  have hS : (0 : Int) ≤ (content.length : Int) := by omega
  have hceil := block_count_eq_ceil (content.length : Int) hS
  rw [← hceil] at hlim ⊢
  have hb0 : 0 ≤ block_count (content.length : Int) := by
    rw [block_count_of_nonneg _ hS]; omega
  have hb1 : block_count (content.length : Int) ≤ 1024 := hlim
  have hu : toUInt32 (block_count (content.length : Int)) = block_count content.length :=
    toUInt32_small _ hb0 (by omega)
  have hi : toInt32 (block_count (content.length : Int)) = block_count content.length :=
    toInt32_small _ (by omega) (by omega)
  have hrf := cp_read_file_ok alloc a hok info _ hsz hS infd outfd w
  rw [hr, hwr, List.nil_append, hu, hi] at hrf
  refine ⟨_, _, hrf, rfl, rfl, rfl, rfl, rfl, rfl, _, _, rfl, ?_⟩
  refine ⟨_, _, cp_handle_read_ok _ _ ?_, rfl, rfl, rfl, rfl, ?_, rfl, rfl, ?_⟩
  · simp only [kernel_readv]
    omega
  · simp only [hu]
  · simp only [cp.write_file, kernel_writev, kernel_readv, hu]
    rw [built_take_all _ _ _ (fresh_length _ _ _).symm]
    exact gather_scatter_built content _ w.mem (fresh_nodup a hinj _ _) (fresh_length _ _ _)

theorem bump_addr_injective : Function.Injective bump_addr := by
  intro x y h
  simp only [bump_addr] at h
  omega

/-- Instance of C3 at a three-byte source with the allocator `bump`. -/
theorem copy_round_trip_witness :
    ∃ (w1 : cp.World) (r : Sqe cp.cp_data),
      cp.read_file bump true (regular hi.length) 3 4 cp.start = Outcome.ret 0 w1 ∧
      w1.read_ring = [r] ∧ w1.write_ring = [] ∧
      r.op = Opcode.readv ∧ r.fd = 3 ∧ r.offset = 0 ∧
      r.nr_vecs = ⌈((hi.length : Int) : ℚ) / 4096⌉ ∧
      ∃ (cqe : Cqe cp.cp_data) (w2 : cp.World),
        cp.complete_read (kernel_readv hi) w1 = some (cqe, w2) ∧
        ∃ (w3 : cp.World) (q : Sqe cp.cp_data),
          cp.handle_read_cqes 0 cqe w2 = Outcome.ret 0 w3 ∧
          w3.write_ring = [q] ∧ q.op = Opcode.writev ∧ q.fd = 4 ∧
          q.iovecs = r.iovecs ∧ q.nr_vecs = r.nr_vecs ∧ q.offset = 0 ∧
          q.user_data = r.user_data ∧
          kernel_writev q w3.mem = hi :=
  copy_round_trip bump bump_addr (fun _ => rfl) bump_addr_injective hi (regular hi.length)
    (by decide)
    (by rw [← block_count_eq_ceil (hi.length : Int) (by decide)]; decide)
    3 4 cp.start rfl rfl

/-- The copy of the three-byte source, by evaluation: the read and the write
carry the same one-slot table, and the write transfers the three bytes. -/
theorem copy_hi_evaluated :
    ∃ w1 cqe w2 w3,
      cp.read_file bump true (regular 3) 3 4 cp.start = Outcome.ret 0 w1 ∧
      cp.complete_read (kernel_readv hi) w1 = some (cqe, w2) ∧
      cp.handle_read_cqes 0 cqe w2 = Outcome.ret 0 w3 ∧
      cqe.res = 3 ∧
      w3.write_ring.map (fun q => (q.op, q.fd, q.iovecs, q.nr_vecs, q.offset))
        = [(Opcode.writev, 4, [some ⟨4096, 3⟩], 1, 0)] ∧
      w3.write_ring.map (fun q => kernel_writev q w3.mem) = [[72, 105, 10]] :=
  ⟨_, _, _, _, rfl, rfl, rfl, by decide, by decide, by decide⟩

/-! ## Empty files, unknown sizes, oversized files (claims C5, C6, C7) -/

/-- C5, as stated, fails: for a regular file of 0 bytes `read_file` of cat.c
and of cp.c allocates nothing, yet each submits a vectorized read with zero
vectors. -/
theorem empty_file_submits_zero_vectors :
    (∃ w1, cat.read_file bump true (regular 0) 3 cat.start = Outcome.ret 0 w1 ∧
      w1.heap.allocated = [] ∧
      ∃ s, s ∈ w1.ring ∧ s.op = Opcode.readv ∧ s.nr_vecs = 0 ∧ s.iovecs = []) ∧
    (∃ w2, cp.read_file bump true (regular 0) 3 4 cp.start = Outcome.ret 0 w2 ∧
      w2.heap.allocated = [] ∧
      ∃ s, s ∈ w2.read_ring ∧ s.op = Opcode.readv ∧ s.nr_vecs = 0 ∧ s.iovecs = []) :=
  ⟨⟨_, rfl, rfl, _, List.mem_singleton.mpr rfl, rfl, rfl, rfl⟩,
   ⟨_, rfl, rfl, _, List.mem_singleton.mpr rfl, rfl, rfl, rfl⟩⟩

/-- C5 amended. For an empty file (size 0), whatever the allocator would
answer, `read_file` of cat.c and of cp.c calls `aligned_alloc` not at all (the
heap is unchanged), returns 0, and submits one vectorized read with an empty
segment table and vector count 0 at offset 0. -/
theorem empty_file_read (alloc : Nat → Option Nat) (info : FdInfo)
    (hsz : get_file_size info = 0) (fd outfd : Int) (w : cat.World) (w' : cp.World) :
    cat.read_file alloc true info fd w
      = Outcome.ret 0
          { heap := w.heap,
            ring := w.ring ++
              [{ op := Opcode.readv, fd := fd, iovecs := [], nr_vecs := 0, offset := 0,
                 user_data := { fd := fd, size := 0, iovecs := [] } }],
            out := w.out, mem := w.mem } ∧
    cp.read_file alloc true info fd outfd w'
      = Outcome.ret 0
          { heap := w'.heap,
            read_ring := w'.read_ring ++
              [{ op := Opcode.readv, fd := fd, iovecs := [], nr_vecs := 0, offset := 0,
                 user_data := { infd := fd, outfd := outfd, size := 0, blocks := 0,
                                iovecs := [] } }],
            write_ring := w'.write_ring, mem := w'.mem } := by
  constructor
  · simp only [cat.read_file, hsz]; rfl
  · simp only [cp.read_file, hsz]; rfl

/-- Instance of the amended C5 at a regular file of 0 bytes. -/
theorem empty_file_read_witness :
    cat.read_file bump true (regular 0) 3 cat.start
      = Outcome.ret 0
          { heap := cat.start.heap,
            ring := cat.start.ring ++
              [{ op := Opcode.readv, fd := 3, iovecs := [], nr_vecs := 0, offset := 0,
                 user_data := { fd := 3, size := 0, iovecs := [] } }],
            out := cat.start.out, mem := cat.start.mem } ∧
    cp.read_file bump true (regular 0) 3 4 cp.start
      = Outcome.ret 0
          { heap := cp.start.heap,
            read_ring := cp.start.read_ring ++
              [{ op := Opcode.readv, fd := 3, iovecs := [], nr_vecs := 0, offset := 0,
                 user_data := { infd := 3, outfd := 4, size := 0, blocks := 0,
                                iovecs := [] } }],
            write_ring := cp.start.write_ring, mem := cp.start.mem } :=
  empty_file_read bump (regular 0) (by decide) 3 4 cat.start cp.start

/-- C6, as stated, fails: for a regular file of 1025 blocks (4198400 bytes)
`read_file` of cp.c returns 0 and has submitted a read carrying 1025 vectors,
more than `IOV_MAX`. -/
theorem oversized_file_is_submitted :
    ∃ w2 s, cp.read_file bump true (regular 4198400) 3 4 cp.start = Outcome.ret 0 w2 ∧
      w2.read_ring = [s] ∧ s.op = Opcode.readv ∧ s.nr_vecs = 1025 ∧
      s.iovecs.length = 1025 ∧ cp.IOV_MAX < s.nr_vecs := by
  have hb : block_count 4198400 = 1025 := by decide
  refine ⟨_, _, cp_read_file_ok bump bump_addr (fun _ => rfl) (regular 4198400) 4198400
    (by decide) (by decide) 3 4 cp.start, rfl, rfl, ?_, ?_, ?_⟩
  · simp only [hb]; decide
  · simp only [built, List.length_map, segs_of_length, fresh_length, hb]; decide
  · simp only [hb]; decide

/-- C6 amended. For every file whose block count `ceil(S / 4096)` exceeds
`IOV_MAX` (1024), when the allocations succeed, `read_file` of cp.c makes no
vector-count check: it returns 0 having submitted one read whose segment table
has `ceil(S / 4096)` written slots and whose vector count is that number
reduced to `unsigned`. -/
theorem oversized_file_read (alloc : Nat → Option Nat) (a : Nat → Nat)
    (hok : ∀ n, alloc n = some (a n)) (info : FdInfo) (S : Int)
    (hsz : get_file_size info = S) (hS : 0 ≤ S)
    (hbig : cp.IOV_MAX < ⌈(S : ℚ) / 4096⌉) (infd outfd : Int) (w : cp.World) :
    ∃ (w2 : cp.World) (s : Sqe cp.cp_data) (segs : List iovec),
      cp.read_file alloc true info infd outfd w = Outcome.ret 0 w2 ∧
      w2.read_ring = w.read_ring ++ [s] ∧ w2.write_ring = w.write_ring ∧
      s.op = Opcode.readv ∧ s.iovecs = segs.map some ∧
      (segs.length : Int) = ⌈(S : ℚ) / 4096⌉ ∧ cp.IOV_MAX < (segs.length : Int) ∧
      s.nr_vecs = toUInt32 ⌈(S : ℚ) / 4096⌉ := by
  have hc := segs_count_sum (fresh a w.heap.calls (block_count S).toNat) S hS
    (fresh_length _ _ _)
  refine ⟨_, _, segs_of (fresh a w.heap.calls (block_count S).toNat) S,
    cp_read_file_ok alloc a hok info S hsz hS infd outfd w, rfl, rfl, rfl, rfl, hc.1, ?_, ?_⟩
  · rw [hc.1]; exact hbig
  · rw [← block_count_eq_ceil S hS]

/-- Instance of the amended C6 at a regular file of 1025 blocks. -/
theorem oversized_file_read_witness :
    ∃ (w2 : cp.World) (s : Sqe cp.cp_data) (segs : List iovec),
      cp.read_file bump true (regular 4198400) 3 4 cp.start = Outcome.ret 0 w2 ∧
      w2.read_ring = cp.start.read_ring ++ [s] ∧ w2.write_ring = cp.start.write_ring ∧
      s.op = Opcode.readv ∧ s.iovecs = segs.map some ∧
      (segs.length : Int) = ⌈((4198400 : Int) : ℚ) / 4096⌉ ∧
      cp.IOV_MAX < (segs.length : Int) ∧
      s.nr_vecs = toUInt32 ⌈((4198400 : Int) : ℚ) / 4096⌉ :=
  oversized_file_read bump bump_addr (fun _ => rfl) (regular 4198400) 4198400
    (by decide) (by decide)
    (by rw [← block_count_eq_ceil 4198400 (by decide)]; decide) 3 4 cp.start

/-- C7, the code at a descriptor whose size cannot be determined: whenever
`get_file_size` returns -1, `read_file` of cat.c and of cp.c does not fail.
It sizes the table for one block, writes no slot, returns 0 and submits a
read with vector count 1 over the unwritten slot. -/
theorem unknown_size_is_submitted (alloc : Nat → Option Nat) (info : FdInfo)
    (hsz : get_file_size info = -1) (fd outfd : Int) (w : cat.World) (w' : cp.World) :
    cat.read_file alloc true info fd w
      = Outcome.ret 0
          { heap := w.heap,
            ring := w.ring ++
              [{ op := Opcode.readv, fd := fd, iovecs := [none], nr_vecs := 1, offset := 0,
                 user_data := { fd := fd, size := -1, iovecs := [none] } }],
            out := w.out, mem := w.mem } ∧
    cp.read_file alloc true info fd outfd w'
      = Outcome.ret 0
          { heap := w'.heap,
            read_ring := w'.read_ring ++
              [{ op := Opcode.readv, fd := fd, iovecs := [none], nr_vecs := 1, offset := 0,
                 user_data := { infd := fd, outfd := outfd, size := -1, blocks := 1,
                                iovecs := [none] } }],
            write_ring := w'.write_ring, mem := w'.mem } := by
  constructor
  · simp only [cat.read_file, hsz]; rfl
  · simp only [cp.read_file, hsz]; rfl

/-- Instance of C7's evaluation at a pipe. -/
theorem unknown_size_is_submitted_witness :
    get_file_size pipe_fd = -1 ∧
    cat.read_file bump true pipe_fd 3 cat.start
      = Outcome.ret 0
          { heap := cat.start.heap,
            ring := cat.start.ring ++
              [{ op := Opcode.readv, fd := 3, iovecs := [none], nr_vecs := 1, offset := 0,
                 user_data := { fd := 3, size := -1, iovecs := [none] } }],
            out := cat.start.out, mem := cat.start.mem } ∧
    cp.read_file bump true pipe_fd 3 4 cp.start
      = Outcome.ret 0
          { heap := cp.start.heap,
            read_ring := cp.start.read_ring ++
              [{ op := Opcode.readv, fd := 3, iovecs := [none], nr_vecs := 1, offset := 0,
                 user_data := { infd := 3, outfd := 4, size := -1, blocks := 1,
                                iovecs := [none] } }],
            write_ring := cp.start.write_ring, mem := cp.start.mem } :=
  ⟨by decide, unknown_size_is_submitted bump pipe_fd (by decide) 3 4 cat.start cp.start⟩

/-- The three ways `get_file_size` gives up all return -1: `fstat` fails, the
device-size request fails, or the file is neither regular nor a block
device. -/
theorem get_file_size_failures (f : FdInfo) :
    (f.fstat_ok = false → get_file_size f = -1) ∧
    (f.fstat_ok = true → f.kind = FileKind.blk → f.ioctl_ok = false →
      get_file_size f = -1) ∧
    (f.fstat_ok = true → f.kind = FileKind.other → get_file_size f = -1) := by
  refine ⟨?_, ?_, ?_⟩
  · intro h; simp [get_file_size, h]
  · intro h1 h2 h3; simp [get_file_size, h1, h2, h3]
  · intro h1 h2; simp [get_file_size, h1, h2]

/-! ## Failure paths (claims C8, C10) -/

/-- C8, as stated, fails: for a regular file of two blocks (8192 bytes) whose
second allocation fails, `read_file` of cat.c and of cp.c returns -1 with the
first buffer still allocated and nothing freed (allocations minus releases is
1, not 0). -/
theorem failed_allocation_leaks :
    (∃ w1, cat.read_file one_shot true (regular 8192) 3 cat.start = Outcome.ret (-1) w1 ∧
      w1.heap.allocated = [4096] ∧ w1.heap.freed = [] ∧
      w1.heap.allocated.length - w1.heap.freed.length = 1 ∧ w1.ring = []) ∧
    (∃ w2, cp.read_file one_shot true (regular 8192) 3 4 cp.start = Outcome.ret (-1) w2 ∧
      w2.heap.allocated = [4096] ∧ w2.heap.freed = [] ∧
      w2.heap.allocated.length - w2.heap.freed.length = 1 ∧
      w2.read_ring = [] ∧ w2.write_ring = []) :=
  ⟨⟨_, rfl, rfl, rfl, rfl, rfl⟩, ⟨_, rfl, rfl, rfl, rfl, rfl, rfl⟩⟩

/-- C8 amended. For every file size `S ≥ 0` and every `k < ceil(S / 4096)`, if
the first `k` block allocations succeed (returning `bufs`) and the next one
fails, `read_file` of cat.c and of cp.c returns -1 and submits nothing to any
ring; it calls `free` on nothing, so the `k` buffers already allocated stay
allocated. -/
theorem failed_allocation_read (alloc : Nat → Option Nat) (bufs : List Nat)
    (info : FdInfo) (S : Int) (hsz : get_file_size info = S) (hS : 0 ≤ S)
    (hk : (bufs.length : Int) < ⌈(S : ℚ) / 4096⌉) (fd outfd : Int)
    (w : cat.World) (w' : cp.World) (hw : w'.heap.calls = w.heap.calls)
    (hal : ∀ j (hj : j < bufs.length), alloc (w.heap.calls + j) = some (bufs.get ⟨j, hj⟩))
    (hno : alloc (w.heap.calls + bufs.length) = none) :
    cat.read_file alloc true info fd w
      = Outcome.ret (-1)
          { heap := { calls := w.heap.calls + bufs.length + 1,
                      allocated := w.heap.allocated ++ bufs, freed := w.heap.freed },
            ring := w.ring, out := w.out, mem := w.mem } ∧
    cp.read_file alloc true info fd outfd w'
      = Outcome.ret (-1)
          { heap := { calls := w'.heap.calls + bufs.length + 1,
                      allocated := w'.heap.allocated ++ bufs, freed := w'.heap.freed },
            read_ring := w'.read_ring, write_ring := w'.write_ring, mem := w'.mem } := by
  rw [← block_count_eq_ceil S hS] at hk
  constructor
  · obtain ⟨tbl, ht⟩ := fill_fail alloc bufs S w.heap hk hS hal hno
    simp only [cat.read_file, hsz, ht]
    rfl
  · rw [← hw] at hal hno
    obtain ⟨tbl, ht⟩ := fill_fail alloc bufs S w'.heap hk hS hal hno
    simp only [cp.read_file, hsz, ht]
    rfl

/-- Instance of the amended C8: two blocks, the second allocation fails. -/
theorem failed_allocation_read_witness :
    cat.read_file one_shot true (regular 8192) 3 cat.start
      = Outcome.ret (-1)
          { heap := { calls := cat.start.heap.calls + [4096].length + 1,
                      allocated := cat.start.heap.allocated ++ [4096],
                      freed := cat.start.heap.freed },
            ring := cat.start.ring, out := cat.start.out, mem := cat.start.mem } ∧
    cp.read_file one_shot true (regular 8192) 3 4 cp.start
      = Outcome.ret (-1)
          { heap := { calls := cp.start.heap.calls + [4096].length + 1,
                      allocated := cp.start.heap.allocated ++ [4096],
                      freed := cp.start.heap.freed },
            read_ring := cp.start.read_ring, write_ring := cp.start.write_ring,
            mem := cp.start.mem } :=
  failed_allocation_read one_shot [4096] (regular 8192) 8192 (by decide) (by decide)
    (by rw [← block_count_eq_ceil 8192 (by decide)]; decide) 3 4 cat.start cp.start rfl
    (by intro j hj
        have hj0 : j = 0 := by simpa using hj
        subst hj0
        rfl)
    (by decide)

/-- C10, the code at a failed read in cat.c: `handle_cqes` never looks at the
result code.  For a completion with result -5 over a one-segment context of 3
bytes it returns 0, writes the 3 buffer bytes to the output and frees the
buffer. -/
theorem cat_ignores_negative_result :
    ∃ w1, cat.handle_cqes 0
        { res := -5, user_data := { fd := 3, size := 3, iovecs := [some ⟨4096, 3⟩] } }
        { heap := { calls := 1, allocated := [4096], freed := [] }, ring := [], out := [],
          mem := fun _ j => Fin.ofNat (j + 7) }
      = Outcome.ret 0 w1 ∧ w1.out = [7, 8, 9] ∧ w1.heap.freed = [4096] :=
  ⟨_, rfl, by decide, by decide⟩

/-- The result code of the completion has no influence on `handle_cqes` of
cat.c. -/
theorem cat_handle_cqes_ignores_res (wait_ret res res2 : Int) (d : cat.cat_data)
    (w : cat.World) :
    cat.handle_cqes wait_ret { res := res, user_data := d } w
      = cat.handle_cqes wait_ret { res := res2, user_data := d } w := rfl

/-- The copier's half of C10 holds: for every negative result code
`handle_read_cqes` returns -1 and leaves both rings as they were, so no write
is submitted. -/
theorem cp_negative_result_fails (wait_ret res : Int) (d : cp.cp_data) (w : cp.World)
    (hres : res < 0) :
    cp.handle_read_cqes wait_ret { res := res, user_data := d } w = Outcome.ret (-1) w := by
  unfold cp.handle_read_cqes
  split
  · rfl
  · simp [hres]

/-- Instance of the copier's half of C10 at result code -5. -/
theorem cp_negative_result_fails_witness :
    cp.handle_read_cqes 0
        { res := -5, user_data := { infd := 3, outfd := 4, size := 3, blocks := 1,
                                    iovecs := [some ⟨4096, 3⟩] } } cp.start
      = Outcome.ret (-1) cp.start :=
  cp_negative_result_fails 0 (-5) _ cp.start (by decide)

/-! ## Buffer accounting (claim C9) -/

/-- The concatenator on a file whose stored `int size` yields no positive
block count: `handle_cqes` runs its loop zero times, so whatever the kernel
did, nothing is printed and nothing is freed. -/
theorem cat_main_truncated (alloc : Nat → Option Nat) (a : Nat → Nat)
    (hok : ∀ n, alloc n = some (a n)) (f : cat.FileEnv) (S : Int)
    (hsz : get_file_size f.info = S) (hS : 0 ≤ S) (hfd : 0 ≤ f.fd)
    (hm : f.malloc_ok = true) (hwait : f.wait_ret = 0)
    (htr : (block_count (toInt32 S)).toNat = 0) (w : cat.World) (hr : w.ring = []) :
    ∃ w1, cat.main alloc [f] w = Outcome.ret 0 w1 ∧
      w1.heap.allocated = w.heap.allocated ++ fresh a w.heap.calls (block_count S).toNat ∧
      w1.heap.freed = w.heap.freed ∧ w1.out = w.out := by
  have hrf := cat_read_file_ok alloc a hok f.info S hsz hS f.fd w
  rw [hr, List.nil_append] at hrf
  have hnfd : ¬ f.fd < 0 := by omega
  have hmain : cat.main alloc [f] w
      = Outcome.ret 0
          { heap := { calls := w.heap.calls + (block_count S).toNat,
                      allocated := w.heap.allocated
                        ++ fresh a w.heap.calls (block_count S).toNat,
                      freed := w.heap.freed },
            ring := [], out := w.out,
            mem := (f.kernel
              { op := Opcode.readv, fd := f.fd,
                iovecs := built (fresh a w.heap.calls (block_count S).toNat) S,
                nr_vecs := toUInt32 (block_count S), offset := 0,
                user_data :=
                  { fd := f.fd, size := toInt32 S,
                    iovecs := built (fresh a w.heap.calls (block_count S).toNat) S } }
              w.mem).1 } := by
    simp only [cat.main, List.length_singleton, Nat.reduceAdd, Nat.lt_irrefl, if_false,
      cat.main_loop, hnfd, hm, hrf, ne_eq, not_true_eq_false, cat.complete,
      cat.handle_cqes, hwait, htr, cat.drain]
  exact ⟨_, hmain, rfl, rfl, rfl⟩

/-- C9, the code at a file of 2 GiB (2147483648 bytes) given to cat.c:
`read_file` allocates 524288 buffers, the size is stored in an `int` as
-2147483648, `handle_cqes` recomputes a block count of -524288 from it, and
the run ends with return value 0 without a single buffer freed. -/
theorem cat_two_gib_frees_nothing (k : Sqe cat.cat_data → Mem → Mem × Int) :
    ∃ w1, cat.main bump
        [{ fd := 3, info := regular 2147483648, malloc_ok := true, kernel := k,
           wait_ret := 0 }] cat.start = Outcome.ret 0 w1 ∧
      w1.heap.allocated.length = 524288 ∧ w1.heap.freed = [] ∧
      block_count (toInt32 2147483648) = -524288 := by
  obtain ⟨w1, h1, h2, h3, _⟩ := cat_main_truncated bump bump_addr (fun _ => rfl)
    { fd := 3, info := regular 2147483648, malloc_ok := true, kernel := k, wait_ret := 0 }
    2147483648 rfl (by decide) (show (0 : Int) ≤ 3 by decide) rfl rfl (by decide)
    cat.start rfl
  refine ⟨w1, h1, ?_, h3, by decide⟩
  rw [h2, List.length_append, fresh_length]
  decide

/-! ## Concatenation (claim C4) and the copier's buffer accounting -/

/-- Two three-byte files through `main` of cat.c, by evaluation: the output is
the six bytes in argument order and both buffers are freed. -/
theorem cat_two_files_evaluated :
    ∃ w1, cat.main bump [cat.plain 3 hi, cat.plain 4 [1, 2, 3]] cat.start
        = Outcome.ret 0 w1 ∧
      w1.out = [72, 105, 10, 1, 2, 3] ∧
      w1.heap = { calls := 2, allocated := [4096, 8192], freed := [4096, 8192] } :=
  ⟨_, rfl, by decide, by decide⟩

/-- While the block count fits `int`, the copier's half of C9 holds: for a
regular source whose read and write complete, `main` of cp.c returns 0 and the
buffers freed by `handle_write_cqes` are exactly the buffers allocated by
`read_file`, each once. -/
theorem cp_buffers_balanced (alloc : Nat → Option Nat) (a : Nat → Nat)
    (hok : ∀ n, alloc n = some (a n)) (hinj : Function.Injective a)
    (content : List Byte) (infd outfd : Int) (w : cp.World)
    (hin : 0 ≤ infd) (hout : 0 ≤ outfd)
    (hfit : block_count (content.length : Int) < 2147483648)
    (hr : w.read_ring = []) (hwr : w.write_ring = []) :
    ∃ (w1 : cp.World) (bufs : List Nat),
      cp.main alloc (cp.plain infd outfd content) w = Outcome.ret 0 w1 ∧
      (bufs.length : Int) = block_count content.length ∧ bufs.Nodup ∧
      w1.heap.allocated = w.heap.allocated ++ bufs ∧
      w1.heap.freed = w.heap.freed ++ bufs := by
  have hS : (0 : Int) ≤ (content.length : Int) := by omega
  have hb := block_count_of_nonneg (content.length : Int) hS
  have hb0 : 0 ≤ block_count (content.length : Int) := by rw [hb]; omega
  have hi : toInt32 (block_count (content.length : Int)) = block_count content.length :=
    toInt32_small _ (by omega) hfit
  have hrf := cp_read_file_ok alloc a hok (regular content.length) _
    (get_file_size_regular _) hS infd outfd w
  rw [hr, hwr, List.nil_append, hi] at hrf
  have h1 : ¬ infd < 0 := by omega
  have h2 : ¬ outfd < 0 := by omega
  have hres : ∀ (s : Sqe cp.cp_data) (m : Mem), ¬ (kernel_readv content s m).2 < 0 := by
    intro s m
    simp only [kernel_readv]
    omega
  have hlen : (block_count (content.length : Int)).toNat
      = (segs_of (fresh a w.heap.calls (block_count content.length).toNat)
          content.length).length := by
    rw [segs_of_length, fresh_length]
  have hmain : ∃ w1, cp.main alloc (cp.plain infd outfd content) w = Outcome.ret 0 w1 ∧
      w1.heap.allocated = w.heap.allocated
        ++ fresh a w.heap.calls (block_count content.length).toNat ∧
      w1.heap.freed = w.heap.freed
        ++ fresh a w.heap.calls (block_count content.length).toNat := by
    simp only [cp.main, cp.plain, ne_eq, not_true_eq_false, if_false, h1, h2,
      Int.lt_irrefl, hrf, cp.complete_read, cp.handle_read_cqes, hres, cp.write_file,
      List.nil_append, cp.complete_write, Bool.true_eq_false]
    unfold built
    rw [cp_handle_write_ok _ _ _ _ _ _ _ hlen]
    simp only [ne_eq, not_true_eq_false, if_false, segs_of_bases]
    exact ⟨_, rfl, rfl, rfl⟩
  obtain ⟨w1, e1, e2, e3⟩ := hmain
  refine ⟨w1, fresh a w.heap.calls (block_count content.length).toNat, e1, ?_,
    fresh_nodup a hinj _ _, e2, e3⟩
  rw [fresh_length]; omega

/-- Instance of the copier's buffer accounting at a three-byte source. -/
theorem cp_buffers_balanced_witness :
    ∃ (w1 : cp.World) (bufs : List Nat),
      cp.main bump (cp.plain 3 4 hi) cp.start = Outcome.ret 0 w1 ∧
      (bufs.length : Int) = block_count hi.length ∧ bufs.Nodup ∧
      w1.heap.allocated = cp.start.heap.allocated ++ bufs ∧
      w1.heap.freed = cp.start.heap.freed ++ bufs :=
  cp_buffers_balanced bump bump_addr (fun _ => rfl) bump_addr_injective hi 3 4 cp.start
    (by decide) (by decide) (by decide) rfl rfl

end IoUring
